import Mathlib

/-!
Shallow embedding of the altshift string-tools page: the transform
dispatcher (`_inputChange` in the tools-app component) and the global
error reporter (the `error` / `unhandledrejection` listeners).

JavaScript strings are sequences of UTF-16 code units; we model them as
`List Nat` (each element one code unit).  `String.prototype.split("\n")`,
`slice`, `length` and the regular expression `/^\s+/` all operate on code
units, so this model is exact for them.
-/

/-- A JavaScript string: its list of UTF-16 code units. -/
abbrev Str := List Nat

/-- Membership of a code unit in the JavaScript regular-expression class
`\s` (the units matched by `/\s/`). -/
def isWsU (u : Nat) : Bool :=
  u = 9 ∨ u = 10 ∨ u = 11 ∨ u = 12 ∨ u = 13 ∨ u = 32 ∨ u = 160 ∨
  u = 0x1680 ∨ (0x2000 ≤ u ∧ u ≤ 0x200A) ∨ u = 0x2028 ∨ u = 0x2029 ∨
  u = 0x202F ∨ u = 0x205F ∨ u = 0x3000 ∨ u = 0xFEFF

/-- The split `s.split("\n")` : cut the unit list at every newline (unit 10).
`"".split("\n")` is `[""]`, and a trailing newline yields a final empty line,
exactly as in JavaScript. -/
def splitOnNl : Str → List Str
  | [] => [[]]
  | u :: rest =>
    if u = 10 then [] :: splitOnNl rest
    else
      match splitOnNl rest with
      | [] => [[u]]
      | l :: ls => (u :: l) :: ls

/-- The join `lines.join("\n")` : interleave unit 10 between the lines. -/
def joinNl : List Str → Str
  | [] => []
  | [l] => l
  | l :: ls => l ++ 10 :: joinNl ls

theorem splitOnNl_ne_nil (s : Str) : splitOnNl s ≠ [] := by
  cases s with
  | nil => simp [splitOnNl]
  | cons u rest =>
    simp only [splitOnNl]
    split
    · simp
    · split <;> simp

theorem joinNl_cons (l : Str) (l2 : Str) (ls : List Str) :
    joinNl (l :: l2 :: ls) = l ++ 10 :: joinNl (l2 :: ls) := rfl

theorem joinNl_splitOnNl (s : Str) : joinNl (splitOnNl s) = s := by
  induction s with
  | nil => rfl
  | cons u rest ih =>
    by_cases h : u = 10
    · subst h
      have hstep : splitOnNl (10 :: rest) = [] :: splitOnNl rest := rfl
      rw [hstep]
      cases hsp : splitOnNl rest with
      | nil => exact absurd hsp (splitOnNl_ne_nil rest)
      | cons l ls =>
        rw [hsp] at ih
        rw [joinNl_cons, ih, List.nil_append]
    · simp only [splitOnNl, if_neg h]
      cases hsp : splitOnNl rest with
      | nil => exact absurd hsp (splitOnNl_ne_nil rest)
      | cons l ls =>
        rw [hsp] at ih
        cases ls with
        | nil =>
          simp only [joinNl] at ih ⊢
          rw [ih]
        | cons l2 ls2 =>
          rw [joinNl_cons] at ih
          rw [joinNl_cons]
          simp only [List.cons_append, ih]

theorem splitOnNl_no_nl (l : Str) (h : 10 ∉ l) : splitOnNl l = [l] := by
  induction l with
  | nil => rfl
  | cons u rest ih =>
    have hu : u ≠ 10 := by
      intro hc; exact h (hc ▸ List.mem_cons_self u rest)
    have hr : 10 ∉ rest := fun hc => h (List.mem_cons_of_mem u hc)
    simp only [splitOnNl, if_neg hu, ih hr]

theorem splitOnNl_append_nl (l t : Str) (h : 10 ∉ l) :
    splitOnNl (l ++ 10 :: t) = l :: splitOnNl t := by
  induction l with
  | nil => simp [splitOnNl]
  | cons u rest ih =>
    have hu : u ≠ 10 := by
      intro hc; exact h (hc ▸ List.mem_cons_self u rest)
    have hr : 10 ∉ rest := fun hc => h (List.mem_cons_of_mem u hc)
    have hstep : (u :: rest) ++ 10 :: t = u :: (rest ++ 10 :: t) := rfl
    rw [hstep]
    simp only [splitOnNl, if_neg hu, ih hr]

theorem splitOnNl_joinNl (ls : List Str) (h : ls ≠ [])
    (hnl : ∀ l ∈ ls, 10 ∉ l) : splitOnNl (joinNl ls) = ls := by
  induction ls with
  | nil => exact absurd rfl h
  | cons l rest ih =>
    cases rest with
    | nil =>
      simp only [joinNl]
      exact splitOnNl_no_nl l (hnl l (List.mem_cons_self l []))
    | cons l2 rest2 =>
      rw [joinNl_cons]
      rw [splitOnNl_append_nl l _ (hnl l (List.mem_cons_self l _))]
      rw [ih (by simp) (fun x hx => hnl x (List.mem_cons_of_mem l hx))]

theorem splitOnNl_mem_no_nl (s : Str) : ∀ l ∈ splitOnNl s, 10 ∉ l := by
  induction s with
  | nil =>
    intro l hl
    simp [splitOnNl] at hl
    simp [hl]
  | cons u rest ih =>
    intro l hl
    by_cases h : u = 10
    · subst h
      have hstep : splitOnNl (10 :: rest) = [] :: splitOnNl rest := rfl
      rw [hstep] at hl
      rcases List.mem_cons.mp hl with h1 | h2
      · simp [h1]
      · exact ih l h2
    · simp only [splitOnNl, if_neg h] at hl
      cases hsp : splitOnNl rest with
      | nil => exact absurd hsp (splitOnNl_ne_nil rest)
      | cons l0 ls0 =>
        rw [hsp] at hl
        rcases List.mem_cons.mp hl with h1 | h2
        · subst h1
          intro hc
          rcases List.mem_cons.mp hc with h3 | h4
          · exact h h3.symm
          · exact ih l0 (hsp ▸ List.mem_cons_self l0 ls0) h4
        · exact ih l (hsp ▸ List.mem_cons_of_mem l0 h2)

/-! ## Deindent (the `deindent` case of `_inputChange`) -/

/-- The match `line.match(/^\s+/)` : `some run` when the line starts with at
least one whitespace unit (`run` is the maximal leading whitespace run),
`none` otherwise (the regular expression does not match). -/
def leadWsMatch (l : Str) : Option Str :=
  let r := l.takeWhile isWsU
  if r = [] then none else some r

/-- The value `Math.min(...xs)` over a spread list: `none` models the result
`Infinity` of `Math.min()` on an empty spread. -/
def minJs : List Nat → Option Nat
  | [] => none
  | x :: xs =>
    match minJs xs with
    | none => some x
    | some y => some (Nat.min x y)

/-- The quantity `num_characters_to_remove` computed by the deindent case:
map `line.match(/^\s+/)` over the lines, filter out the nulls, take the
match lengths, apply `Math.min`, and turn `Infinity` into `0`. -/
def deindentAmount (lines : List Str) : Nat :=
  match minJs (((lines.map leadWsMatch).filterMap id).map List.length) with
  | some m => m
  | none => 0

/-- The deindent transform exactly as the `deindent` case computes it:
split on newline, remove `deindentAmount` leading units from every line
(`line.slice(n)` is `List.drop n`), and rejoin with newline. -/
def deindent (s : Str) : Str :=
  let lines := splitOnNl s
  joinNl (lines.map (fun line => line.drop (deindentAmount lines)))

/-- Whether a line has at least one leading whitespace character. -/
def hasLeadWs (l : Str) : Bool :=
  match l with
  | [] => false
  | u :: _ => isWsU u

/-- Modelled from the spec wording of the deindent contract (for comparison
with `deindent`, which is taken from the source): split the input on
newline; over exactly those lines that have at least one leading whitespace
character, take the minimum length of the leading all-whitespace run; if no
line has a leading whitespace character the output is the input unchanged;
otherwise remove that minimum from every line and rejoin with newline. -/
def deindentSpec (s : Str) : Str :=
  let lines := splitOnNl s
  match (lines.filter hasLeadWs).map (fun l => (l.takeWhile isWsU).length) with
  | [] => s
  | m :: ms => joinNl (lines.map (fun line => line.drop (ms.foldl Nat.min m)))

theorem foldl_min_min (xs : List Nat) : ∀ a b : Nat,
    Nat.min a (xs.foldl Nat.min b) = xs.foldl Nat.min (Nat.min a b) := by
  induction xs with
  | nil => intro a b; rfl
  | cons c xs ih =>
    intro a b
    simp only [List.foldl_cons]
    rw [ih a (Nat.min b c)]
    congr 1
    exact (Nat.min_assoc a b c).symm

theorem minJs_cons_foldl (xs : List Nat) : ∀ x : Nat,
    minJs (x :: xs) = some (xs.foldl Nat.min x) := by
  induction xs with
  | nil => intro x; rfl
  | cons y xs ih =>
    intro x
    have hstep : minJs (x :: y :: xs) =
        match minJs (y :: xs) with
        | none => some x
        | some z => some (Nat.min x z) := rfl
    rw [hstep, ih y]
    show some (Nat.min x (xs.foldl Nat.min y)) = some ((y :: xs).foldl Nat.min x)
    rw [foldl_min_min]
    rfl

theorem deindent_runs_eq (lines : List Str) :
    ((lines.map leadWsMatch).filterMap id).map List.length =
      (lines.filter hasLeadWs).map (fun l => (l.takeWhile isWsU).length) := by
  induction lines with
  | nil => rfl
  | cons l rest ih =>
    cases l with
    | nil =>
      have h1 : leadWsMatch ([] : Str) = none := rfl
      have h2 : hasLeadWs ([] : Str) = false := rfl
      rw [List.map_cons, h1, List.filterMap_cons, List.filter_cons, h2]
      simpa using ih
    | cons u t =>
      by_cases hw : isWsU u = true
      · have h1 : leadWsMatch (u :: t) = some (u :: t.takeWhile isWsU) := by
          simp [leadWsMatch, List.takeWhile_cons, hw]
        have h2 : hasLeadWs (u :: t) = true := by simp [hasLeadWs, hw]
        rw [List.map_cons, h1, List.filterMap_cons, List.filter_cons, h2]
        simp only [id_eq, if_true, List.map_cons, List.length_cons]
        rw [ih]
        simp [List.takeWhile_cons, hw]
      · have hw2 : isWsU u = false := by
          cases hb : isWsU u
          · rfl
          · exact absurd hb hw
        have h1 : leadWsMatch (u :: t) = none := by
          simp [leadWsMatch, List.takeWhile_cons, hw2]
        have h2 : hasLeadWs (u :: t) = false := by simp [hasLeadWs, hw2]
        rw [List.map_cons, h1, List.filterMap_cons, List.filter_cons, h2]
        simpa using ih

theorem deindent_eq_spec_aux (s : Str) : deindent s = deindentSpec s := by
  simp only [deindent, deindentSpec, deindentAmount]
  rw [← deindent_runs_eq (splitOnNl s)]
  cases hr : (((splitOnNl s).map leadWsMatch).filterMap id).map List.length with
  | nil =>
    have h0 : (match minJs [] with | some m => m | none => 0) = 0 := rfl
    rw [h0]
    simp only [List.drop_zero]
    rw [List.map_id']
    exact joinNl_splitOnNl s
  | cons m ms =>
    rw [minJs_cons_foldl]

theorem filterMap_leadWsMatch_nil (lines : List Str)
    (h : ∀ l ∈ lines, leadWsMatch l = none) :
    (lines.map leadWsMatch).filterMap id = [] := by
  induction lines with
  | nil => rfl
  | cons l rest ih =>
    rw [List.map_cons, h l (List.mem_cons_self l rest), List.filterMap_cons]
    exact ih (fun x hx => h x (List.mem_cons_of_mem l hx))

theorem deindent_no_ws (s : Str) (h : ∀ l ∈ splitOnNl s, leadWsMatch l = none) :
    deindent s = s := by
  simp only [deindent, deindentAmount]
  rw [filterMap_leadWsMatch_nil (splitOnNl s) h]
  have h0 : (match minJs (List.map List.length ([] : List Str)) with
      | some m => m | none => 0) = 0 := rfl
  rw [h0]
  simp only [List.drop_zero]
  rw [List.map_id']
  exact joinNl_splitOnNl s

theorem splitOnNl_deindent (s : Str) :
    splitOnNl (deindent s) =
      (splitOnNl s).map (fun line => line.drop (deindentAmount (splitOnNl s))) := by
  simp only [deindent]
  apply splitOnNl_joinNl
  · intro hc
    exact splitOnNl_ne_nil s (List.map_eq_nil_iff.mp hc)
  · intro l hl
    obtain ⟨l0, hl0, rfl⟩ := List.mem_map.mp hl
    intro hc
    exact splitOnNl_mem_no_nl s l0 hl0 (List.mem_of_mem_drop hc)

/-! ## Base64 (`btoa` / `atob`)

The page calls the platform primitives `btoa` and `atob`; they are not part
of this repository's sources, so they are modelled from their specified
behaviour: `btoa` maps a string whose every code unit is at most 255 to its
standard base64 encoding (unit 61 is the padding `=`), and throws on any
unit above 255; `atob` decodes well-formed base64 and throws otherwise. -/

/-- Unit (character code) of the base64 alphabet entry for a sextet. -/
def b64Unit (n : Nat) : Nat :=
  if n < 26 then 65 + n
  else if n < 52 then 97 + (n - 26)
  else if n < 62 then 48 + (n - 52)
  else if n = 62 then 43
  else 47

/-- Sextet value of a base64 alphabet unit, `none` for a unit outside the
alphabet (padding `=` included). -/
def b64Val (u : Nat) : Option Nat :=
  if 65 ≤ u ∧ u ≤ 90 then some (u - 65)
  else if 97 ≤ u ∧ u ≤ 122 then some (u - 97 + 26)
  else if 48 ≤ u ∧ u ≤ 57 then some (u - 48 + 52)
  else if u = 43 then some 62
  else if u = 47 then some 63
  else none

/-- Base64-encode a byte list, three bytes to four alphabet units, padding
the final group with `=` (unit 61). -/
def encodeB64 : List Nat → List Nat
  | [] => []
  | [a] => [b64Unit (a / 4), b64Unit (a % 4 * 16), 61, 61]
  | [a, b] => [b64Unit (a / 4), b64Unit (a % 4 * 16 + b / 16), b64Unit (b % 16 * 4), 61]
  | a :: b :: c :: rest =>
    b64Unit (a / 4) :: b64Unit (a % 4 * 16 + b / 16) ::
      b64Unit (b % 16 * 4 + c / 64) :: b64Unit (c % 64) :: encodeB64 rest

/-- Base64-decode an alphabet-unit list, `none` on malformed input
(wrong length, stray unit, or padding anywhere but the final group). -/
def decodeB64 : List Nat → Option (List Nat)
  | [] => some []
  | c1 :: c2 :: c3 :: c4 :: rest =>
    if c4 = 61 then
      if rest = [] then
        if c3 = 61 then do
          let v1 ← b64Val c1
          let v2 ← b64Val c2
          pure [v1 * 4 + v2 / 16]
        else do
          let v1 ← b64Val c1
          let v2 ← b64Val c2
          let v3 ← b64Val c3
          pure [v1 * 4 + v2 / 16, v2 % 16 * 16 + v3 / 4]
      else none
    else do
      let v1 ← b64Val c1
      let v2 ← b64Val c2
      let v3 ← b64Val c3
      let v4 ← b64Val c4
      let tl ← decodeB64 rest
      pure ((v1 * 4 + v2 / 16) :: (v2 % 16 * 16 + v3 / 4) :: (v3 % 4 * 64 + v4) :: tl)
  | _ => none

/-- Modelled from the spec: `btoa(s)` succeeds with the base64 encoding of
the byte-per-character reading of `s` when every unit is at most 255 and
throws (`none`) otherwise. -/
def jsBtoa (s : Str) : Option Str :=
  if s.all (fun u => u ≤ 255) then some (encodeB64 s) else none

/-- Modelled from the spec: `atob(s)` decodes base64, throwing (`none`) on
malformed input. -/
def jsAtob (s : Str) : Option Str :=
  decodeB64 s

theorem b64Val_b64Unit : ∀ n, n < 64 → b64Val (b64Unit n) = some n := by decide

theorem b64Unit_ne_61 : ∀ n, n < 64 → b64Unit n ≠ 61 := by decide

theorem decodeB64_encodeB64 : ∀ bytes : List Nat,
    (∀ b ∈ bytes, b ≤ 255) → decodeB64 (encodeB64 bytes) = some bytes
  | [], _ => rfl
  | [a], h => by
    have ha : a ≤ 255 := h a (List.mem_cons_self a [])
    have e1 : b64Val (b64Unit (a / 4)) = some (a / 4) :=
      b64Val_b64Unit _ (by omega)
    have e2 : b64Val (b64Unit (a % 4 * 16)) = some (a % 4 * 16) :=
      b64Val_b64Unit _ (by omega)
    have hd : decodeB64 (encodeB64 [a]) =
        (b64Val (b64Unit (a / 4))).bind (fun v1 =>
          (b64Val (b64Unit (a % 4 * 16))).bind (fun v2 =>
            some [v1 * 4 + v2 / 16])) := rfl
    rw [hd, e1, e2]
    show some [a / 4 * 4 + a % 4 * 16 / 16] = some [a]
    have g1 : a / 4 * 4 + a % 4 * 16 / 16 = a := by omega
    rw [g1]
  | [a, b], h => by
    have ha : a ≤ 255 := h a (by simp)
    have hb : b ≤ 255 := h b (by simp)
    have hne : b64Unit (b % 16 * 4) ≠ 61 := b64Unit_ne_61 _ (by omega)
    have e1 : b64Val (b64Unit (a / 4)) = some (a / 4) :=
      b64Val_b64Unit _ (by omega)
    have e2 : b64Val (b64Unit (a % 4 * 16 + b / 16)) = some (a % 4 * 16 + b / 16) :=
      b64Val_b64Unit _ (by omega)
    have e3 : b64Val (b64Unit (b % 16 * 4)) = some (b % 16 * 4) :=
      b64Val_b64Unit _ (by omega)
    have hd : decodeB64 (encodeB64 [a, b]) =
        (b64Val (b64Unit (a / 4))).bind (fun v1 =>
          (b64Val (b64Unit (a % 4 * 16 + b / 16))).bind (fun v2 =>
            (b64Val (b64Unit (b % 16 * 4))).bind (fun v3 =>
              some [v1 * 4 + v2 / 16, v2 % 16 * 16 + v3 / 4]))) := by
      show decodeB64 [b64Unit (a / 4), b64Unit (a % 4 * 16 + b / 16),
        b64Unit (b % 16 * 4), 61] = _
      simp only [decodeB64]
      rw [if_neg hne]
      rfl
    rw [hd, e1, e2, e3]
    show some [a / 4 * 4 + (a % 4 * 16 + b / 16) / 16,
      (a % 4 * 16 + b / 16) % 16 * 16 + b % 16 * 4 / 4] = some [a, b]
    have g1 : a / 4 * 4 + (a % 4 * 16 + b / 16) / 16 = a := by omega
    have g2 : (a % 4 * 16 + b / 16) % 16 * 16 + b % 16 * 4 / 4 = b := by omega
    rw [g1, g2]
  | a :: b :: c :: rest, h => by
    have ha : a ≤ 255 := h a (by simp)
    have hb : b ≤ 255 := h b (by simp)
    have hc : c ≤ 255 := h c (by simp)
    have ih := decodeB64_encodeB64 rest (fun x hx => h x (by simp [hx]))
    have hne : b64Unit (c % 64) ≠ 61 := b64Unit_ne_61 _ (by omega)
    have e1 : b64Val (b64Unit (a / 4)) = some (a / 4) :=
      b64Val_b64Unit _ (by omega)
    have e2 : b64Val (b64Unit (a % 4 * 16 + b / 16)) = some (a % 4 * 16 + b / 16) :=
      b64Val_b64Unit _ (by omega)
    have e3 : b64Val (b64Unit (b % 16 * 4 + c / 64)) = some (b % 16 * 4 + c / 64) :=
      b64Val_b64Unit _ (by omega)
    have e4 : b64Val (b64Unit (c % 64)) = some (c % 64) :=
      b64Val_b64Unit _ (by omega)
    have hd : decodeB64 (encodeB64 (a :: b :: c :: rest)) =
        (b64Val (b64Unit (a / 4))).bind (fun v1 =>
          (b64Val (b64Unit (a % 4 * 16 + b / 16))).bind (fun v2 =>
            (b64Val (b64Unit (b % 16 * 4 + c / 64))).bind (fun v3 =>
              (b64Val (b64Unit (c % 64))).bind (fun v4 =>
                (decodeB64 (encodeB64 rest)).bind (fun tl =>
                  some ((v1 * 4 + v2 / 16) :: (v2 % 16 * 16 + v3 / 4) ::
                    (v3 % 4 * 64 + v4) :: tl)))))) := by
      show decodeB64 (b64Unit (a / 4) :: b64Unit (a % 4 * 16 + b / 16) ::
        b64Unit (b % 16 * 4 + c / 64) :: b64Unit (c % 64) :: encodeB64 rest) = _
      simp only [decodeB64]
      rw [if_neg hne]
      rfl
    rw [hd, e1, e2, e3, e4, ih]
    show some ((a / 4 * 4 + (a % 4 * 16 + b / 16) / 16) ::
      ((a % 4 * 16 + b / 16) % 16 * 16 + (b % 16 * 4 + c / 64) / 4) ::
      ((b % 16 * 4 + c / 64) % 4 * 64 + c % 64) :: rest) = some (a :: b :: c :: rest)
    have g1 : a / 4 * 4 + (a % 4 * 16 + b / 16) / 16 = a := by omega
    have g2 : (a % 4 * 16 + b / 16) % 16 * 16 + (b % 16 * 4 + c / 64) / 4 = b := by omega
    have g3 : (b % 16 * 4 + c / 64) % 4 * 64 + c % 64 = c := by omega
    rw [g1, g2, g3]

/-! ## JSON (`JSON.stringify` / `JSON.parse` on arrays of strings)

The page calls the platform JSON codec; it is not part of this repository's
sources, so it is modelled from its specified behaviour on the shapes the
dispatcher produces and consumes: JSON string escaping with the standard
two-character escapes and `\u00XX` for other control units, and a parser
for a JSON array of strings (the shape `lines-to-json-array` emits; any
other JSON input is modelled as a parse/join failure). -/

/-- Lowercase hexadecimal digit unit for a value below 16. -/
def hexDigitU (n : Nat) : Nat := if n < 10 then 48 + n else 87 + n

/-- Value of a hexadecimal digit unit (upper or lower case). -/
def hexValU (u : Nat) : Option Nat :=
  if 48 ≤ u ∧ u ≤ 57 then some (u - 48)
  else if 97 ≤ u ∧ u ≤ 102 then some (u - 87)
  else if 65 ≤ u ∧ u ≤ 70 then some (u - 55)
  else none

/-- JSON escaping of one string unit: `\"` and `\\`, the short escapes for
backspace, tab, newline, form feed and carriage return, `\u00XX` for the
other control units, and every other unit literally. -/
def escUnit (u : Nat) : Str :=
  if u = 34 then [92, 34]
  else if u = 92 then [92, 92]
  else if u = 8 then [92, 98]
  else if u = 9 then [92, 116]
  else if u = 10 then [92, 110]
  else if u = 12 then [92, 102]
  else if u = 13 then [92, 114]
  else if u < 32 then [92, 117, 48, 48, hexDigitU (u / 16), hexDigitU (u % 16)]
  else [u]

/-- JSON escaping of a string body (no surrounding quotes). -/
def escapeJson : Str → Str
  | [] => []
  | u :: t => escUnit u ++ escapeJson t

/-- The serialization `JSON.stringify(s)` of one string: quote, escape,
quote. -/
def jsonQuoteStr (s : Str) : Str := 34 :: escapeJson s ++ [34]

/-- Value of a two-character escape unit after `\` (solidus included),
`none` when it is not a valid single-character escape. -/
def escCodeU (e : Nat) : Option Nat :=
  if e = 34 then some 34
  else if e = 92 then some 92
  else if e = 47 then some 47
  else if e = 98 then some 8
  else if e = 116 then some 9
  else if e = 110 then some 10
  else if e = 102 then some 12
  else if e = 114 then some 13
  else none

/-- Parse the body of a JSON string after the opening quote, returning the
decoded units and the remainder after the closing quote. -/
def parseStrBody : Str → Option (Str × Str)
  | [] => none
  | u :: rest =>
    if u = 34 then some ([], rest)
    else if u = 92 then
      match rest with
      | [] => none
      | e :: rest2 =>
        if e = 117 then
          match rest2 with
          | a :: b :: c :: d :: rest3 =>
            match hexValU a, hexValU b, hexValU c, hexValU d with
            | some ha, some hb, some hc, some hd =>
              match parseStrBody rest3 with
              | some (v, t) => some ((4096 * ha + 256 * hb + 16 * hc + hd) :: v, t)
              | none => none
            | _, _, _, _ => none
          | _ => none
        else
          match escCodeU e with
          | some w =>
            match parseStrBody rest2 with
            | some (v, t) => some (w :: v, t)
            | none => none
          | none => none
    else if u < 32 then none
    else
      match parseStrBody rest with
      | some (v, t) => some (u :: v, t)
      | none => none

/-- The serialization of the elements of a non-empty JSON string array
after its first element: comma-separated quoted strings, then `]`. -/
def stringifyTail : List Str → Str
  | [] => [93]
  | l :: rest => 44 :: jsonQuoteStr l ++ stringifyTail rest

/-- The serialization `JSON.stringify(arr)` of an array of strings. -/
def stringifyStrArray : List Str → Str
  | [] => [91, 93]
  | l :: rest => 91 :: jsonQuoteStr l ++ stringifyTail rest

/-- Parse one or more comma-separated JSON strings followed by `]`, with a
fuel bound; returns the strings and the remainder. -/
def parseItemsF : Nat → Str → Option (List Str × Str)
  | 0, _ => none
  | _ + 1, [] => none
  | fuel + 1, u :: rest =>
    if u = 34 then
      match parseStrBody rest with
      | some (v, rest2) =>
        match rest2 with
        | [] => none
        | w :: rest3 =>
          if w = 44 then
            match parseItemsF fuel rest3 with
            | some (vs, t) => some (v :: vs, t)
            | none => none
          else if w = 93 then some ([v], rest3)
          else none
      | none => none
    else none

/-- Parse a complete JSON array of strings (nothing may follow it). -/
def jsonParseStrArray (s : Str) : Option (List Str) :=
  match s with
  | [] => none
  | u :: rest =>
    if u = 91 then
      match rest with
      | [93] => some []
      | _ =>
        match parseItemsF (rest.length + 1) rest with
        | some (vs, []) => some vs
        | _ => none
    else none

theorem hexValU_hexDigitU : ∀ x, x < 16 → hexValU (hexDigitU x) = some x := by decide

theorem parseStrBody_escape (s : Str) : ∀ r : Str,
    parseStrBody (escapeJson s ++ 34 :: r) = some (s, r) := by
  induction s with
  | nil =>
    intro r
    show parseStrBody (34 :: r) = some ([], r)
    rw [parseStrBody.eq_def]
    rfl
  | cons u t ih =>
    intro r
    by_cases h34 : u = 34
    · subst h34
      show parseStrBody (92 :: 34 :: (escapeJson t ++ 34 :: r)) = some (34 :: t, r)
      have hstep : parseStrBody (92 :: 34 :: (escapeJson t ++ 34 :: r)) =
          match parseStrBody (escapeJson t ++ 34 :: r) with
          | some (v, t2) => some ((34 : Nat) :: v, t2)
          | none => none := by
        rw [parseStrBody.eq_def]
        rfl
      rw [hstep, ih r]
    · by_cases h92 : u = 92
      · subst h92
        show parseStrBody (92 :: 92 :: (escapeJson t ++ 34 :: r)) = some (92 :: t, r)
        have hstep : parseStrBody (92 :: 92 :: (escapeJson t ++ 34 :: r)) =
            match parseStrBody (escapeJson t ++ 34 :: r) with
            | some (v, t2) => some ((92 : Nat) :: v, t2)
            | none => none := by
          rw [parseStrBody.eq_def]
          rfl
        rw [hstep, ih r]
      · by_cases hlt : u < 32
        · by_cases h8 : u = 8
          · subst h8
            show parseStrBody (92 :: 98 :: (escapeJson t ++ 34 :: r)) = some (8 :: t, r)
            have hstep : parseStrBody (92 :: 98 :: (escapeJson t ++ 34 :: r)) =
                match parseStrBody (escapeJson t ++ 34 :: r) with
                | some (v, t2) => some ((8 : Nat) :: v, t2)
                | none => none := by
              rw [parseStrBody.eq_def]
              rfl
            rw [hstep, ih r]
          · by_cases h9 : u = 9
            · subst h9
              show parseStrBody (92 :: 116 :: (escapeJson t ++ 34 :: r)) = some (9 :: t, r)
              have hstep : parseStrBody (92 :: 116 :: (escapeJson t ++ 34 :: r)) =
                  match parseStrBody (escapeJson t ++ 34 :: r) with
                  | some (v, t2) => some ((9 : Nat) :: v, t2)
                  | none => none := by
                rw [parseStrBody.eq_def]
                rfl
              rw [hstep, ih r]
            · by_cases h10 : u = 10
              · subst h10
                show parseStrBody (92 :: 110 :: (escapeJson t ++ 34 :: r)) = some (10 :: t, r)
                have hstep : parseStrBody (92 :: 110 :: (escapeJson t ++ 34 :: r)) =
                    match parseStrBody (escapeJson t ++ 34 :: r) with
                    | some (v, t2) => some ((10 : Nat) :: v, t2)
                    | none => none := by
                  rw [parseStrBody.eq_def]
                  rfl
                rw [hstep, ih r]
              · by_cases h12 : u = 12
                · subst h12
                  show parseStrBody (92 :: 102 :: (escapeJson t ++ 34 :: r)) = some (12 :: t, r)
                  have hstep : parseStrBody (92 :: 102 :: (escapeJson t ++ 34 :: r)) =
                      match parseStrBody (escapeJson t ++ 34 :: r) with
                      | some (v, t2) => some ((12 : Nat) :: v, t2)
                      | none => none := by
                    rw [parseStrBody.eq_def]
                    rfl
                  rw [hstep, ih r]
                · by_cases h13 : u = 13
                  · subst h13
                    show parseStrBody (92 :: 114 :: (escapeJson t ++ 34 :: r)) = some (13 :: t, r)
                    have hstep : parseStrBody (92 :: 114 :: (escapeJson t ++ 34 :: r)) =
                        match parseStrBody (escapeJson t ++ 34 :: r) with
                        | some (v, t2) => some ((13 : Nat) :: v, t2)
                        | none => none := by
                      rw [parseStrBody.eq_def]
                      rfl
                    rw [hstep, ih r]
                  · have he : escUnit u =
                        [92, 117, 48, 48, hexDigitU (u / 16), hexDigitU (u % 16)] := by
                      unfold escUnit
                      rw [if_neg h34, if_neg h92, if_neg h8, if_neg h9, if_neg h10,
                        if_neg h12, if_neg h13, if_pos hlt]
                    have hL : escapeJson (u :: t) ++ 34 :: r =
                        escUnit u ++ (escapeJson t ++ 34 :: r) := by
                      show (escUnit u ++ escapeJson t) ++ 34 :: r = _
                      rw [List.append_assoc]
                    rw [hL, he]
                    show parseStrBody (92 :: 117 :: 48 :: 48 :: hexDigitU (u / 16) ::
                      hexDigitU (u % 16) :: (escapeJson t ++ 34 :: r)) = some (u :: t, r)
                    have hstep : parseStrBody (92 :: 117 :: 48 :: 48 :: hexDigitU (u / 16) ::
                        hexDigitU (u % 16) :: (escapeJson t ++ 34 :: r)) =
                        match hexValU 48, hexValU 48, hexValU (hexDigitU (u / 16)),
                            hexValU (hexDigitU (u % 16)) with
                        | some ha, some hb, some hc, some hd =>
                          match parseStrBody (escapeJson t ++ 34 :: r) with
                          | some (v, t2) =>
                            some ((4096 * ha + 256 * hb + 16 * hc + hd) :: v, t2)
                          | none => none
                        | _, _, _, _ => none := by
                      rw [parseStrBody.eq_def]
                      rfl
                    rw [hstep, hexValU_hexDigitU (u / 16) (by omega),
                      hexValU_hexDigitU (u % 16) (by omega), ih r]
                    show some ((4096 * 0 + 256 * 0 + 16 * (u / 16) + u % 16) :: t, r) =
                      some (u :: t, r)
                    have hu : 4096 * 0 + 256 * 0 + 16 * (u / 16) + u % 16 = u := by omega
                    rw [hu]
        · have he : escUnit u = [u] := by
            unfold escUnit
            rw [if_neg h34, if_neg h92, if_neg (by omega : ¬ u = 8),
              if_neg (by omega : ¬ u = 9), if_neg (by omega : ¬ u = 10),
              if_neg (by omega : ¬ u = 12), if_neg (by omega : ¬ u = 13), if_neg hlt]
          have hL : escapeJson (u :: t) ++ 34 :: r =
              escUnit u ++ (escapeJson t ++ 34 :: r) := by
            show (escUnit u ++ escapeJson t) ++ 34 :: r = _
            rw [List.append_assoc]
          rw [hL, he]
          show parseStrBody (u :: (escapeJson t ++ 34 :: r)) = some (u :: t, r)
          rw [parseStrBody.eq_def]
          show (if u = 34 then some (([] : Str), escapeJson t ++ 34 :: r)
            else if u = 92 then
              (match escapeJson t ++ 34 :: r with
              | [] => none
              | e :: rest2 =>
                if e = 117 then
                  match rest2 with
                  | a :: b :: c :: d :: rest3 =>
                    match hexValU a, hexValU b, hexValU c, hexValU d with
                    | some ha, some hb, some hc, some hd =>
                      match parseStrBody rest3 with
                      | some (v, t2) =>
                        some ((4096 * ha + 256 * hb + 16 * hc + hd) :: v, t2)
                      | none => none
                    | _, _, _, _ => none
                  | _ => none
                else
                  match escCodeU e with
                  | some w =>
                    match parseStrBody rest2 with
                    | some (v, t2) => some (w :: v, t2)
                    | none => none
                  | none => none)
            else if u < 32 then none
            else
              match parseStrBody (escapeJson t ++ 34 :: r) with
              | some (v, t2) => some (u :: v, t2)
              | none => none) = some (u :: t, r)
          rw [if_neg h34, if_neg h92, if_neg hlt, ih r]

theorem stringifyTail_length_ge (ls : List Str) :
    ls.length ≤ (stringifyTail ls).length := by
  induction ls with
  | nil => simp [stringifyTail]
  | cons l rest ih =>
    show rest.length + 1 ≤ (44 :: jsonQuoteStr l ++ stringifyTail rest).length
    simp only [List.length_cons, List.length_append]
    omega

theorem parseItemsF_encode : ∀ (ls : List Str) (l : Str) (fuel : Nat),
    ls.length < fuel →
    parseItemsF fuel (34 :: (escapeJson l ++ 34 :: stringifyTail ls)) =
      some (l :: ls, []) := by
  intro ls
  induction ls with
  | nil =>
    intro l fuel hf
    obtain ⟨f, rfl⟩ : ∃ f, fuel = f + 1 := ⟨fuel - 1, by omega⟩
    have hstep : parseItemsF (f + 1) (34 :: (escapeJson l ++ 34 :: stringifyTail [])) =
        match parseStrBody (escapeJson l ++ 34 :: stringifyTail []) with
        | some (v, rest2) =>
          (match rest2 with
           | [] => none
           | w :: rest3 =>
             if w = 44 then
               match parseItemsF f rest3 with
               | some (vs, t2) => some (v :: vs, t2)
               | none => none
             else if w = 93 then some ([v], rest3)
             else none)
        | none => none := by
      rw [parseItemsF.eq_def]
      rfl
    rw [hstep, parseStrBody_escape]
    rfl
  | cons l2 ls2 ih =>
    intro l fuel hf
    obtain ⟨f, rfl⟩ : ∃ f, fuel = f + 1 := ⟨fuel - 1, by omega⟩
    have hstep : parseItemsF (f + 1)
        (34 :: (escapeJson l ++ 34 :: stringifyTail (l2 :: ls2))) =
        match parseStrBody (escapeJson l ++ 34 :: stringifyTail (l2 :: ls2)) with
        | some (v, rest2) =>
          (match rest2 with
           | [] => none
           | w :: rest3 =>
             if w = 44 then
               match parseItemsF f rest3 with
               | some (vs, t2) => some (v :: vs, t2)
               | none => none
             else if w = 93 then some ([v], rest3)
             else none)
        | none => none := by
      rw [parseItemsF.eq_def]
      rfl
    rw [hstep, parseStrBody_escape]
    show (match parseItemsF f (jsonQuoteStr l2 ++ stringifyTail ls2) with
      | some (vs, t2) => some (l :: vs, t2)
      | none => none) = some (l :: l2 :: ls2, [])
    have harg : jsonQuoteStr l2 ++ stringifyTail ls2 =
        34 :: (escapeJson l2 ++ 34 :: stringifyTail ls2) := by
      show (34 :: escapeJson l2 ++ [34]) ++ stringifyTail ls2 = _
      simp [List.append_assoc]
    have hf2 : ls2.length < f := by
      simp only [List.length_cons] at hf
      omega
    rw [harg, ih l2 f hf2]

theorem jsonParse_stringify (ls : List Str) :
    jsonParseStrArray (stringifyStrArray ls) = some ls := by
  cases ls with
  | nil => rfl
  | cons l rest =>
    show jsonParseStrArray (91 :: (jsonQuoteStr l ++ stringifyTail rest)) =
      some (l :: rest)
    have harg : jsonQuoteStr l ++ stringifyTail rest =
        34 :: (escapeJson l ++ 34 :: stringifyTail rest) := by
      show (34 :: escapeJson l ++ [34]) ++ stringifyTail rest = _
      simp [List.append_assoc]
    rw [harg]
    have hstep : jsonParseStrArray
        (91 :: (34 :: (escapeJson l ++ 34 :: stringifyTail rest))) =
        match parseItemsF ((34 :: (escapeJson l ++ 34 :: stringifyTail rest)).length + 1)
            (34 :: (escapeJson l ++ 34 :: stringifyTail rest)) with
        | some (vs, []) => some vs
        | _ => none := rfl
    rw [hstep]
    have hfuel : rest.length <
        (34 :: (escapeJson l ++ 34 :: stringifyTail rest)).length + 1 := by
      have h1 := stringifyTail_length_ge rest
      simp only [List.length_cons, List.length_append]
      omega
    rw [parseItemsF_encode rest l _ hfuel]

/-! ## The transform dispatcher (`_inputChange`) -/

/-- State of the component output: `_outputValue` and `_inputError`. -/
structure DState where
  output : Str
  isError : Bool
deriving DecidableEq

/-- The decimal rendering `n.toString()` of a string length. -/
def natToStr (n : Nat) : Str := (Nat.toDigits 10 n).map Char.toNat

/-- The slice `s.slice(1, -1)` : drop the first and last unit. -/
def jsSlice1Neg1 (s : Str) : Str := (s.drop 1).dropLast

/-- The function identifiers offered by the selection control. -/
def supportedIds : List String :=
  ["decode-base64", "encode-base64", "SHA-1", "SHA-256", "SHA-512",
   "json-escape", "lines-to-json-array", "json-array-to-lines",
   "length", "deindent"]

/-- One invocation of `_inputChange`: given the hash primitive (the hex
rendering of `crypto.subtle.digest`, a platform call outside this
repository, passed as a function of the algorithm name and the input), the
selected function identifier, the input text and the previous state, it
returns the next state, or `Except.error` when the switch throws (its
`default` branch).  `_inputError` is cleared before the empty-selection
early return and the `catch` blocks set the error flag with empty output,
exactly as in the source; `JSON.stringify` on a plain string and on an
array of strings always succeeds, so those `catch` blocks are
unreachable. -/
def dispatch (hash : String → Str → Str) (functionName : String) (input : Str)
    (st : DState) : Except String DState :=
  let st1 : DState := { st with isError := false }
  if functionName = "" then .ok st1
  else if functionName = "encode-base64" then
    match jsBtoa input with
    | some o => .ok { output := o, isError := false }
    | none => .ok { output := [], isError := true }
  else if functionName = "decode-base64" then
    match jsAtob input with
    | some o => .ok { output := o, isError := false }
    | none => .ok { output := [], isError := true }
  else if functionName = "SHA-1" ∨ functionName = "SHA-256" ∨
      functionName = "SHA-512" then
    .ok { output := hash functionName input, isError := false }
  else if functionName = "json-escape" then
    .ok { output := jsSlice1Neg1 (jsonQuoteStr input), isError := false }
  else if functionName = "lines-to-json-array" then
    .ok { output := stringifyStrArray (splitOnNl input), isError := false }
  else if functionName = "json-array-to-lines" then
    match jsonParseStrArray input with
    | some arr => .ok { output := joinNl arr, isError := false }
    | none => .ok { output := [], isError := true }
  else if functionName = "length" then
    .ok { output := natToStr input.length, isError := false }
  else if functionName = "deindent" then
    .ok { output := deindent input, isError := false }
  else .error ("Unexpected function: " ++ functionName)

/-! ## The error reporter (`error` / `unhandledrejection` listeners) -/

/-- An arbitrary JavaScript value as the report serialization sees it:
only its `JSON.stringify` outcome matters (`none` models a thrown
`TypeError`, e.g. a cyclic structure). -/
structure JsOpaque where
  jsonRepr : Option Str
deriving DecidableEq

/-- An exception-like JavaScript object as the listeners inspect it: its
constructor name, the outcomes of the two `instanceof` tests, the fields
the two detail extractors read, and its own `JSON.stringify` outcome
(`none` models a thrown `TypeError`, e.g. a cyclic structure). -/
structure FailObj where
  ctorName : String
  isErrorInstance : Bool
  isDOMExceptionInstance : Bool
  message : Str
  name : Str
  stack : Str
  code : Nat
  cause : JsOpaque
  jsonRepr : Option Str
deriving DecidableEq

/-- A failure value delivered to a listener (`event.error` or
`event.reason`): a primitive string, an object, or any other value
(carrying its type tag and `JSON.stringify` outcome). -/
inductive JsVal
  | vstr (s : Str)
  | vobj (o : FailObj)
  | vother (typeName : String) (jsonRepr : Option Str)
deriving DecidableEq

/-- The structured detail record (`ErrorDetails`): either the
`{cause, stack, name}` shape or the `{message, name, code}` shape. -/
inductive ErrDetails
  | generic (cause : JsOpaque) (stack : Str) (name : Str)
  | platform (message : Str) (name : Str) (code : Nat)
deriving DecidableEq

/-- The extractor `getErrorDetails`: `{cause, stack, name}`. -/
def getErrorDetails (o : FailObj) : ErrDetails :=
  .generic o.cause o.stack o.name

/-- The extractor `getDomExceptionDetails`: `{message, name, code}`. -/
def getDomExceptionDetails (o : FailObj) : ErrDetails :=
  .platform o.message o.name o.code

/-- The detail selection both listeners perform: `instanceof Error` first,
then `instanceof DOMException`, otherwise no structured details. -/
def detailsFor (v : JsVal) : Option ErrDetails :=
  match v with
  | .vobj o =>
    if o.isErrorInstance then some (getErrorDetails o)
    else if o.isDOMExceptionInstance then some (getDomExceptionDetails o)
    else none
  | _ => none

/-- The classification `error?.constructor?.name ?? typeof error`: a
primitive string is classified as `String`. -/
def jsTypeTag (v : JsVal) : String :=
  match v with
  | .vstr _ => "String"
  | .vobj o => o.ctorName
  | .vother t _ => t

/-- Modelled from the spec: the guarded `JSON.stringify(value)` of the
triggering value, `none` when it throws (the `catch` leaves the raw field
`undefined`).  A primitive string always serializes, to its quoted escaped
form. -/
def jsStringifyVal (v : JsVal) : Option Str :=
  match v with
  | .vstr s => some (jsonQuoteStr s)
  | .vobj o => o.jsonRepr
  | .vother _ j => j

/-- The report body the `error` listener assembles (`ErrorBody`). -/
structure ErrorBody where
  colno : Nat
  filename : Str
  lineno : Nat
  message : Str
  type : String
  rawError : Option Str
  error : Option ErrDetails
deriving DecidableEq

/-- The report body the `unhandledrejection` listener assembles
(`RejectionReasonBody`). -/
structure RejectionReasonBody where
  type : String
  rawReason : Option Str
  error : Option ErrDetails
deriving DecidableEq

/-- The fields of an `ErrorEvent` the `error` listener reads. -/
structure ErrorEvent where
  colno : Nat
  filename : Str
  lineno : Nat
  message : Str
  error : JsVal

/-- The body assembly of the `error` listener: source position and message
from the event, type tag, guarded raw serialization, and the structured
details selected by the two `instanceof` tests. -/
def buildErrorBody (ev : ErrorEvent) : ErrorBody :=
  { colno := ev.colno, filename := ev.filename, lineno := ev.lineno,
    message := ev.message, type := jsTypeTag ev.error,
    rawError := jsStringifyVal ev.error, error := detailsFor ev.error }

/-- The body assembly of the `unhandledrejection` listener. -/
def buildRejectionBody (reason : JsVal) : RejectionReasonBody :=
  { type := jsTypeTag reason, rawReason := jsStringifyVal reason,
    error := detailsFor reason }

/-- Modelled from the spec: whether the final, unguarded
`JSON.stringify(body)` of a report body succeeds.  Every field of the body
is a string, a number or absent except a generic detail record's `cause`,
which is the original arbitrary `cause` value; the serialization throws
exactly when that embedded value fails to serialize. -/
def detailsSerialize (d : Option ErrDetails) : Bool :=
  match d with
  | some (.generic c _ _) => c.jsonRepr.isSome
  | _ => true

/-- The `error` listener, end to end: assemble the body, then
`fetch("/api/report/error", {body: JSON.stringify(body), ...})`.  The
`JSON.stringify(body)` call is not wrapped in any `try`; when it throws,
the exception leaves the listener (`Except.error`).  On success the
transmitted request is the endpoint path with the body. -/
def runErrorListener (ev : ErrorEvent) : Except Unit (String × ErrorBody) :=
  let body := buildErrorBody ev
  if detailsSerialize body.error then .ok ("/api/report/error", body)
  else .error ()

/-- The `unhandledrejection` listener, end to end, as `runErrorListener`. -/
def runRejectionListener (reason : JsVal) :
    Except Unit (String × RejectionReasonBody) :=
  let body := buildRejectionBody reason
  if detailsSerialize body.error then .ok ("/api/report/unhandled-rejection", body)
  else .error ()

/-! ## Claims -/

/-- Hash stand-in used for evaluating the dispatcher at concrete inputs. -/
def hash0 : String → Str → Str := fun _ _ => []

/-- A concrete prior state for evaluations. -/
def dst0 : DState := { output := [], isError := false }

/-- A thrown `Error` whose `cause` is the error itself: `JSON.stringify`
throws on it (cyclic structure), both on the raw value and from inside the
assembled report body. -/
def cyclicCauseError : FailObj :=
  { ctorName := "Error", isErrorInstance := true,
    isDOMExceptionInstance := false, message := [],
    name := [69, 114, 114, 111, 114], stack := [], code := 0,
    cause := { jsonRepr := none }, jsonRepr := none }

/-- C1: the claim that every serialization step in the observers is guarded
fails on the code: for an uncaught `Error` with a cyclic `cause`, the raw
serialization is guarded, but the final `JSON.stringify` of the assembled
report body is not, so the serialization failure escapes both observers. -/
theorem c1_listener_throws_on_cyclic_cause :
    runErrorListener ⟨0, [], 0, [], .vobj cyclicCauseError⟩ = .error ()
    ∧ runRejectionListener (.vobj cyclicCauseError) = .error () := ⟨rfl, rfl⟩

/-- C2 counterexample: dispatching the empty identifier from the state
(empty output, error flag set) returns the error flag cleared: the flag is
not what it was before the invocation, refuting the claim that nothing
changes. -/
theorem c2_empty_dispatch_clears_error_flag :
    dispatch hash0 "" [] { output := [], isError := true } =
      .ok { output := [], isError := false }
    ∧ ({ output := [], isError := false } : DState) ≠
      { output := [], isError := true } := ⟨rfl, by decide⟩

/-- C2 amended: dispatching the empty identifier never throws, leaves the
output value unchanged, and resets the error flag to false (clearing any
prior error rather than preserving it), for every hash primitive, input
string and prior state. -/
theorem c2_empty_dispatch_keeps_output_clears_error
    (hash : String → Str → Str) (input : Str) (st : DState) :
    dispatch hash "" input st = .ok { output := st.output, isError := false } := rfl

/-- The input `"a\n    b\n  c"` (units) refuting deindent idempotence. -/
def deindentCexInput : Str := [97, 10, 32, 32, 32, 32, 98, 10, 32, 32, 99]

/-- C3 counterexample: deindent is not idempotent: on `"a\n    b\n  c"` the
first application yields `"\n  b\nc"` and a second application strips two
more units from every line, yielding `"\nb\n"`. -/
theorem c3_deindent_not_idempotent :
    deindent (deindent deindentCexInput) ≠ deindent deindentCexInput := by decide

/-- C3 amended: deindent is idempotent on exactly those inputs whose
deindented form has no line left with leading whitespace; when the first
output still has an indented line (as in the counterexample) a second
application strips further. -/
theorem c3_deindent_idempotent_when_output_unindented (s : Str)
    (h : ∀ l ∈ splitOnNl (deindent s), leadWsMatch l = none) :
    deindent (deindent s) = deindent s :=
  deindent_no_ws (deindent s) h

/-- C3 amended witness at `"a\nb"`. -/
theorem c3_witness :
    deindent (deindent [97, 10, 98]) = deindent [97, 10, 98] :=
  c3_deindent_idempotent_when_output_unindented [97, 10, 98] (by decide)

/-- A `DOMException`-like value that is also an `Error` instance, as every
`DOMException` is on the current web platform (its prototype chain reaches
`Error.prototype`). -/
def domExceptionAsError : FailObj :=
  { ctorName := "DOMException", isErrorInstance := true,
    isDOMExceptionInstance := true, message := [109], name := [110],
    stack := [115], code := 11, cause := { jsonRepr := some [] },
    jsonRepr := some [] }

/-- C4 counterexample: a platform-exception value that is also an `Error`
instance is routed by the first (`instanceof Error`) branch to the
`{cause, stack, name}` shape, so its structured detail record is not the
`{message, name, code}` shape the claim requires for every
DOMException-like value. -/
theorem c4_domexception_gets_generic_details :
    domExceptionAsError.isDOMExceptionInstance = true
    ∧ detailsFor (.vobj domExceptionAsError) =
        some (getErrorDetails domExceptionAsError)
    ∧ detailsFor (.vobj domExceptionAsError) ≠
        some (getDomExceptionDetails domExceptionAsError) := by
  refine ⟨rfl, rfl, ?_⟩
  decide

/-- C4 amended: the `{message, name, code}` shape is produced exactly for
platform-exception values that are not also `Error` instances (the
`instanceof Error` test comes first), and the `{cause, stack, name}` shape
is produced only for values recognized as `Error` instances. -/
theorem c4_platform_details_when_not_error_instance (o : FailObj)
    (hd : o.isDOMExceptionInstance = true) (he : o.isErrorInstance = false) :
    detailsFor (.vobj o) = some (getDomExceptionDetails o)
    ∧ ∀ v c stk n, detailsFor v = some (.generic c stk n) →
        ∃ ob, v = JsVal.vobj ob ∧ ob.isErrorInstance = true := by
  constructor
  · simp [detailsFor, he, hd]
  · intro v c stk n h
    match v with
    | .vstr s => simp [detailsFor] at h
    | .vother t j => simp [detailsFor] at h
    | .vobj ob =>
      by_cases hb : ob.isErrorInstance = true
      · exact ⟨ob, rfl, hb⟩
      · exfalso
        simp only [detailsFor, if_neg hb] at h
        by_cases hdb : ob.isDOMExceptionInstance = true
        · rw [if_pos hdb] at h
          simp [getDomExceptionDetails] at h
        · rw [if_neg hdb] at h
          simp at h

/-- A pure platform-exception value, not an `Error` instance. -/
def pureDomException : FailObj :=
  { ctorName := "DOMException", isErrorInstance := false,
    isDOMExceptionInstance := true, message := [109], name := [110],
    stack := [], code := 11, cause := { jsonRepr := some [] },
    jsonRepr := some [] }

/-- C4 amended witness at a pure platform-exception value. -/
theorem c4_witness :
    detailsFor (.vobj pureDomException) =
      some (getDomExceptionDetails pureDomException)
    ∧ ∀ v c stk n, detailsFor v = some (.generic c stk n) →
        ∃ ob, v = JsVal.vobj ob ∧ ob.isErrorInstance = true :=
  c4_platform_details_when_not_error_instance pureDomException rfl rfl

/-- C5: for every supported function identifier, hash primitive, input and
prior state, `_inputChange` returns without throwing, and the resulting
state never pairs a set error flag with non-empty output: when the error
flag is set, the output is the empty string. -/
theorem c5_dispatch_total_and_exclusive (hash : String → Str → Str)
    (functionName : String) (input : Str) (st : DState)
    (h : functionName ∈ supportedIds) :
    ∃ st2, dispatch hash functionName input st = .ok st2
      ∧ (st2.isError = true → st2.output = []) := by
  simp only [supportedIds, List.mem_cons, List.not_mem_nil, or_false] at h
  rcases h with h | h | h | h | h | h | h | h | h | h <;> subst h
  · cases ha : jsAtob input with
    | some o =>
      refine ⟨({ output := o, isError := false } : DState), ?_, fun hc => nomatch hc⟩
      show (match jsAtob input with
        | some o2 => Except.ok ({ output := o2, isError := false } : DState)
        | none => Except.ok ({ output := [], isError := true } : DState)) = _
      rw [ha]
    | none =>
      refine ⟨({ output := [], isError := true } : DState), ?_, fun _ => rfl⟩
      show (match jsAtob input with
        | some o2 => Except.ok ({ output := o2, isError := false } : DState)
        | none => Except.ok ({ output := [], isError := true } : DState)) = _
      rw [ha]
  · cases ha : jsBtoa input with
    | some o =>
      refine ⟨({ output := o, isError := false } : DState), ?_, fun hc => nomatch hc⟩
      show (match jsBtoa input with
        | some o2 => Except.ok ({ output := o2, isError := false } : DState)
        | none => Except.ok ({ output := [], isError := true } : DState)) = _
      rw [ha]
    | none =>
      refine ⟨({ output := [], isError := true } : DState), ?_, fun _ => rfl⟩
      show (match jsBtoa input with
        | some o2 => Except.ok ({ output := o2, isError := false } : DState)
        | none => Except.ok ({ output := [], isError := true } : DState)) = _
      rw [ha]
  · exact ⟨_, rfl, fun hc => nomatch hc⟩
  · exact ⟨_, rfl, fun hc => nomatch hc⟩
  · exact ⟨_, rfl, fun hc => nomatch hc⟩
  · exact ⟨_, rfl, fun hc => nomatch hc⟩
  · exact ⟨_, rfl, fun hc => nomatch hc⟩
  · cases ha : jsonParseStrArray input with
    | some arr =>
      refine ⟨({ output := joinNl arr, isError := false } : DState), ?_, fun hc => nomatch hc⟩
      show (match jsonParseStrArray input with
        | some arr2 => Except.ok ({ output := joinNl arr2, isError := false } : DState)
        | none => Except.ok ({ output := [], isError := true } : DState)) = _
      rw [ha]
    | none =>
      refine ⟨({ output := [], isError := true } : DState), ?_, fun _ => rfl⟩
      show (match jsonParseStrArray input with
        | some arr2 => Except.ok ({ output := joinNl arr2, isError := false } : DState)
        | none => Except.ok ({ output := [], isError := true } : DState)) = _
      rw [ha]
  · exact ⟨_, rfl, fun hc => nomatch hc⟩
  · exact ⟨_, rfl, fun hc => nomatch hc⟩

/-- C5 witness at the `length` identifier with empty input. -/
theorem c5_witness :
    ∃ st2, dispatch hash0 "length" [] dst0 = .ok st2
      ∧ (st2.isError = true → st2.output = []) :=
  c5_dispatch_total_and_exclusive hash0 "length" [] dst0 (by decide)

/-- C6: the deindent case computes exactly the specified transform: split
on newline, take the minimum leading all-whitespace run length over exactly
the lines with at least one leading whitespace character (whitespace-only
lines included), remove that many leading characters from every line, and
rejoin; when no line has leading whitespace the input is returned
unchanged. -/
theorem c6_deindent_functional_correctness (s : Str) :
    deindent s = deindentSpec s :=
  deindent_eq_spec_aux s

/-- C7: for every input string whose units are all at most 255,
encode-base64 dispatch succeeds without error, and decode-base64 dispatch
on its output recovers the original input without error, for every hash
primitive and prior states. -/
theorem c7_base64_round_trip (hash : String → Str → Str) (s : Str)
    (st st2 : DState) (h : ∀ u ∈ s, u ≤ 255) :
    dispatch hash "encode-base64" s st =
      .ok { output := encodeB64 s, isError := false }
    ∧ dispatch hash "decode-base64" (encodeB64 s) st2 =
      .ok { output := s, isError := false } := by
  constructor
  · show (match jsBtoa s with
      | some o => Except.ok ({ output := o, isError := false } : DState)
      | none => Except.ok ({ output := [], isError := true } : DState)) = _
    have hb : jsBtoa s = some (encodeB64 s) := by
      unfold jsBtoa
      rw [if_pos]
      exact List.all_eq_true.mpr (fun u hu => decide_eq_true (h u hu))
    rw [hb]
  · show (match jsAtob (encodeB64 s) with
      | some o => Except.ok ({ output := o, isError := false } : DState)
      | none => Except.ok ({ output := [], isError := true } : DState)) = _
    have hb : jsAtob (encodeB64 s) = some s := decodeB64_encodeB64 s h
    rw [hb]

/-- C7 witness at the two-unit input `"hi"`. -/
theorem c7_witness :
    dispatch hash0 "encode-base64" [104, 105] dst0 =
      .ok { output := encodeB64 [104, 105], isError := false }
    ∧ dispatch hash0 "decode-base64" (encodeB64 [104, 105]) dst0 =
      .ok { output := [104, 105], isError := false } :=
  c7_base64_round_trip hash0 [104, 105] dst0 dst0 (by decide)

/-- C8: for every input string, lines-to-json-array dispatch succeeds
without error, and json-array-to-lines dispatch on its output recovers the
original input without error, for every hash primitive and prior states. -/
theorem c8_lines_json_round_trip (hash : String → Str → Str) (s : Str)
    (st st2 : DState) :
    dispatch hash "lines-to-json-array" s st =
      .ok { output := stringifyStrArray (splitOnNl s), isError := false }
    ∧ dispatch hash "json-array-to-lines" (stringifyStrArray (splitOnNl s)) st2 =
      .ok { output := s, isError := false } := by
  constructor
  · rfl
  · show (match jsonParseStrArray (stringifyStrArray (splitOnNl s)) with
      | some arr => Except.ok ({ output := joinNl arr, isError := false } : DState)
      | none => Except.ok ({ output := [], isError := true } : DState)) = _
    rw [jsonParse_stringify (splitOnNl s)]
    show Except.ok ({ output := joinNl (splitOnNl s), isError := false } : DState) = _
    rw [joinNl_splitOnNl]

/-- An ordinary thrown `Error` instance. -/
def plainError : FailObj :=
  { ctorName := "Error", isErrorInstance := true,
    isDOMExceptionInstance := false, message := [], name := [69],
    stack := [83], code := 0, cause := { jsonRepr := some [] },
    jsonRepr := some [] }

/-- C9: a plain-string failure value yields report bodies whose structured
error field is omitted while the raw serialization field is populated, in
both report shapes; an `Error`-instance value yields bodies whose error
field is the `{cause, stack, name}` record carrying that Error's name and
stack. -/
theorem c9_report_shapes (s : Str) (o : FailObj) (ho : o.isErrorInstance = true)
    (cn ln : Nat) (fn msg : Str) :
    ((buildErrorBody ⟨cn, fn, ln, msg, .vstr s⟩).error = none
      ∧ (buildErrorBody ⟨cn, fn, ln, msg, .vstr s⟩).rawError =
          some (jsonQuoteStr s))
    ∧ ((buildRejectionBody (.vstr s)).error = none
      ∧ (buildRejectionBody (.vstr s)).rawReason = some (jsonQuoteStr s))
    ∧ (buildErrorBody ⟨cn, fn, ln, msg, .vobj o⟩).error =
        some (.generic o.cause o.stack o.name)
    ∧ (buildRejectionBody (.vobj o)).error =
        some (.generic o.cause o.stack o.name) := by
  refine ⟨⟨rfl, rfl⟩, ⟨rfl, rfl⟩, ?_, ?_⟩
  · show detailsFor (.vobj o) = _
    simp [detailsFor, ho, getErrorDetails]
  · show detailsFor (.vobj o) = _
    simp [detailsFor, ho, getErrorDetails]

/-- C9 witness at a one-unit string value and a concrete `Error` value. -/
theorem c9_witness :
    ((buildErrorBody ⟨1, [], 2, [], .vstr [104]⟩).error = none
      ∧ (buildErrorBody ⟨1, [], 2, [], .vstr [104]⟩).rawError =
          some (jsonQuoteStr [104]))
    ∧ ((buildRejectionBody (.vstr [104])).error = none
      ∧ (buildRejectionBody (.vstr [104])).rawReason = some (jsonQuoteStr [104]))
    ∧ (buildErrorBody ⟨1, [], 2, [], .vobj plainError⟩).error =
        some (.generic plainError.cause plainError.stack plainError.name)
    ∧ (buildRejectionBody (.vobj plainError)).error =
        some (.generic plainError.cause plainError.stack plainError.name) :=
  c9_report_shapes [104] plainError rfl 1 2 [] []

/-- C10: deindent preserves the number of lines: the output split on
newline has exactly as many lines as the input split on newline. -/
theorem c10_deindent_preserves_line_count (s : Str) :
    (splitOnNl (deindent s)).length = (splitOnNl s).length := by
  rw [splitOnNl_deindent, List.length_map]
